import Mathlib

/-!
Shallow embedding of the core device layer of `nvtrust-rs` (`src/dev.rs`):
PCI configuration-header decoding, the capability-chain walk, BAR-table
initialization from the resource listing, GPU BAR0 mapping with its boot and
cross-mapping sanity checks, and the raw MMIO read/write accessors.

Machine integers are modelled as `Nat` with explicit `% 256` (resp. `% 2^w`)
where byte truncation matters.  Fallible Rust functions returning
`anyhow::Result` are modelled with `Except DevError`; a Rust `panic!`
(`unwrap` on a malformed input, out-of-bounds index) is modelled as `Option.none`
around the result where it can occur.
-/

namespace NvTrust

/-- The error kinds surfaced by the device layer (each corresponds to one
`anyhow!` site in `dev.rs`). -/
inductive DevError where
  /-- `"Invalid length"` in `RawConfig::from_bytes`. -/
  | shortRead
  /-- `"Invalid device found"` in `PciDevice::new`. -/
  | unexpectedDevice
  /-- `"No capabilities found"` in `PciDevice::init_caps`. -/
  | noCapabilities
  /-- a malformed resource-table line (`from_str_radix` failure). -/
  | parseError
  /-- `"sanity check of mmio failed"` / `"sanity check of iomem failed"`. -/
  | sanityCheckFailed
  /-- an access beyond the mapped window (required by the spec, see C1). -/
  | outOfRange
  deriving DecidableEq, Repr

instance {e a : Type} [DecidableEq e] [DecidableEq a] : DecidableEq (Except e a)
  | .ok x, .ok y => decidable_of_iff (x = y) (by simp)
  | .error x, .error y => decidable_of_iff (x = y) (by simp)
  | .ok _, .error _ => isFalse (by simp)
  | .error _, .ok _ => isFalse (by simp)

/-- Rust `pub struct Bar { addr: u64, size: u64, is_64: bool }` from `dev.rs`. -/
structure Bar where
  addr : Nat
  size : Nat
  is_64 : Bool
  deriving DecidableEq, Repr

/-- Default `Bar` (`#[derive(Default)]`): the all-zero descriptor. -/
def Bar.default : Bar := ⟨0, 0, false⟩

/-! ## String helpers

Models of the Rust string operations used by `init_bars` and `sanity_check`:
`str::split` on a one-character pattern (keeping empty pieces),
`str::replace("0x", "")`, `str::trim`, `str::contains`, and
`u64::from_str_radix(_, 16)`.  All inputs of interest stay below `2^64`, so
the `u64` overflow failure of `from_str_radix` is not modelled. -/

/-- Rust `s.split(sep)` for a one-character separator: every occurrence splits,
empty pieces are kept, `n` separators yield `n + 1` pieces. -/
def splitOnChar (sep : Char) : List Char → List (List Char)
  | [] => [[]]
  | c :: cs =>
    if c = sep then [] :: splitOnChar sep cs
    else
      match splitOnChar sep cs with
      | [] => [[c]]
      | p :: ps => (c :: p) :: ps

/-- Rust `s.replace("0x", "")`: remove the non-overlapping occurrences of `0x`,
scanning left to right. -/
def removeHexPrefixes : List Char → List Char
  | [] => []
  | '0' :: 'x' :: rest => removeHexPrefixes rest
  | c :: rest => c :: removeHexPrefixes rest

/-- The value of one hexadecimal digit (`from_str_radix` radix 16 accepts
`0-9`, `a-f` and `A-F`). -/
def hexDigit (c : Char) : Option Nat :=
  if '0' ≤ c ∧ c ≤ '9' then some (c.toNat - '0'.toNat)
  else if 'a' ≤ c ∧ c ≤ 'f' then some (c.toNat - 'a'.toNat + 10)
  else if 'A' ≤ c ∧ c ≤ 'F' then some (c.toNat - 'A'.toNat + 10)
  else none

/-- Rust `u64::from_str_radix(s, 16)`: fails on an empty string or any non-digit
character (sign handling is irrelevant for the inputs at hand). -/
def fromStrRadix16 : List Char → Option Nat
  | [] => none
  | cs => cs.foldl (fun acc c => acc.bind fun a => (hexDigit c).map fun d => 16 * a + d)
      (some 0)

/-- Rust `s.trim()`: strip leading and trailing whitespace. -/
def trimChars (cs : List Char) : List Char :=
  (((cs.dropWhile Char.isWhitespace).reverse).dropWhile Char.isWhitespace).reverse

/-- Rust `s.contains(pat)`: `pat` occurs as a contiguous substring of `s`. -/
def containsSub (pat : List Char) : List Char → Bool
  | [] => decide (pat = [])
  | c :: cs => pat.isPrefixOf (c :: cs) || containsSub pat cs

/-! ## `PciDevice::init_bars`

The Rust loop iterates over the first six resource-table lines, each parsed
into `(addr, end, flags)`, and stores a compacted `Bar` at slot `i`:

```rust
if flags & 0x1 == 0 {
    if addr != 0 {
        let size = end - addr + 1;
        let is_64 = (flags >> 1) & 0x3 == 0x2;
        self.bars[i] = Bar { addr, size, is_64 };
        i += 1;
    }
}
```
-/

/-- One parsed resource-table line: `(start_address, end_address, flags)`. -/
abbrev ResourceLine := Nat × Nat × Nat

/-- The condition under which the loop stores a line:
`flags & 0x1 == 0` and (nested inside it) `addr != 0`. -/
def keepLine (t : ResourceLine) : Prop := t.2.2 &&& 0x1 = 0 ∧ t.1 ≠ 0

instance (t : ResourceLine) : Decidable (keepLine t) := by
  unfold keepLine; infer_instance

/-- The descriptor stored for a kept line:
`Bar { addr, size: end - addr + 1, is_64: (flags >> 1) & 0x3 == 0x2 }`. -/
def mkBar (t : ResourceLine) : Bar :=
  ⟨t.1, t.2.1 - t.1 + 1, decide ((t.2.2 >>> 1) &&& 0x3 = 0x2)⟩

/-- The loop of `init_bars`: the running slot index `i` and the six-slot
array `self.bars` (as a length-6 list); `i` advances only on a store. -/
def initBarsGo : List ResourceLine → Nat → List Bar → List Bar
  | [], _, bars => bars
  | t :: rest, i, bars =>
    if keepLine t then initBarsGo rest (i + 1) (bars.set i (mkBar t))
    else initBarsGo rest i bars

/-- Model of `PciDevice::init_bars` over already-parsed lines: takes the first six
lines (`raw_bars.iter().take(6)`) and runs the loop on the default-initialized
six-slot BAR array. -/
def initBars (lines : List ResourceLine) : List Bar :=
  initBarsGo (lines.take 6) 0 (List.replicate 6 Bar.default)

/-- Parsing of one resource-table line inside the loop:
`bar.split(" ").map(|s| s.replace("0x", ""))`, then
`u64::from_str_radix(&bar[j], 16)?` for `j = 0, 1, 2`.  A missing field
(an out-of-bounds index, a Rust panic) and a failed `from_str_radix` are both
`none` here. -/
def parseResourceLine (s : String) : Option ResourceLine :=
  let fields := (splitOnChar ' ' s.toList).map removeHexPrefixes
  match fields.get? 0, fields.get? 1, fields.get? 2 with
  | some f0, some f1, some f2 => do
    let addr ← fromStrRadix16 f0
    let endAddr ← fromStrRadix16 f1
    let flags ← fromStrRadix16 f2
    pure (addr, endAddr, flags)
  | _, _, _ => none

/-- The `init_bars` loop over the raw text lines: each line is parsed in turn
(`?` propagates a parse failure) and then stored or skipped as in
`initBarsGo`. -/
def initBarsTextGo : List String → Nat → List Bar → Except DevError (List Bar)
  | [], _, bars => .ok bars
  | s :: rest, i, bars =>
    match parseResourceLine s with
    | none => .error .parseError
    | some t =>
      if keepLine t then initBarsTextGo rest (i + 1) (bars.set i (mkBar t))
      else initBarsTextGo rest i bars

/-- Model of `PciDevice::init_bars` over the text of the `resource` listing, already
split at newlines (`read_to_string(..)?.split("\n")`). -/
def init_bars (lines : List String) : Except DevError (List Bar) :=
  initBarsTextGo (lines.take 6) 0 (List.replicate 6 Bar.default)

/-- The declarative description from the spec: among the first six lines, drop
those with flags bit 0 set or a zero start address; map each survivor to its
descriptor, in order (compacted). -/
def storedBars (lines : List ResourceLine) : List Bar :=
  ((lines.take 6).filter fun t => decide (keepLine t)).map mkBar

/-! ## `PciDevice::init_caps`

```rust
if self.config.config.capabilities_pointer == 0xff {
    return Err(anyhow!("No capabilities found"));
}
let mut ptr = self.config.config.capabilities_pointer;
while ptr != 0 {
    let mut data = [0u8; 4];
    fs::seek(&self.config.file_fd, fs::SeekFrom::Start(ptr as _))?;
    io::read(&self.config.file_fd, &mut data)?;
    let cap_id = data[0];
    let cap_next = data[1];
    self.caps.insert(cap_id, ptr as u64);
    ptr = cap_next;
}
```

The configuration byte stream is a function `cfg : Nat → Nat` from offset to
byte; the `HashMap<u8, u64>` is an association list whose `insert` replaces an
existing key's value and otherwise appends; the unbounded `while` loop is run
on explicit fuel, `none` standing for non-termination within the fuel. -/

/-- Byte `data[0]` of the 4-byte read at offset `p`: the capability id. -/
def capId (cfg : Nat → Nat) (p : Nat) : Nat := cfg p % 256

/-- Byte `data[1]` of the 4-byte read at offset `p`: the next-capability offset. -/
def capNext (cfg : Nat → Nat) (p : Nat) : Nat := cfg (p + 1) % 256

/-- Model of `HashMap::insert`: replace the value of an existing key, otherwise add the
new entry. -/
def capsInsert (caps : List (Nat × Nat)) (k v : Nat) : List (Nat × Nat) :=
  if caps.any fun e => e.1 = k then caps.map fun e => if e.1 = k then (k, v) else e
  else caps ++ [(k, v)]

/-- The `while ptr != 0` loop of `init_caps`, on explicit fuel. -/
def initCapsGo (cfg : Nat → Nat) : Nat → Nat → List (Nat × Nat) → Option (List (Nat × Nat))
  | 0, ptr, caps => if ptr = 0 then some caps else none
  | fuel + 1, ptr, caps =>
    if ptr = 0 then some caps
    else initCapsGo cfg fuel (capNext cfg ptr) (capsInsert caps (capId cfg ptr) ptr)

/-- Model of `PciDevice::init_caps`: `capPtr` is the header's `capabilities_pointer`,
`caps` the current (initially empty) table held in `self.caps`; the result
pairs the returned `Result` with the table as left by the call. -/
def init_caps (cfg : Nat → Nat) (capPtr fuel : Nat) (caps : List (Nat × Nat)) :
    Option (Except DevError Unit × List (Nat × Nat)) :=
  if capPtr = 0xff then some (.error .noCapabilities, caps)
  else (initCapsGo cfg fuel capPtr caps).map fun c => (.ok (), c)

/-- A well-formed capability chain rooted at `ptr`: the successive node
offsets until a next offset of `0`, each nonzero. -/
def isCapChain (cfg : Nat → Nat) : Nat → List Nat → Prop
  | ptr, [] => ptr = 0
  | ptr, o :: os => ptr = o ∧ o ≠ 0 ∧ isCapChain cfg (capNext cfg o) os

instance capChainDec (cfg : Nat → Nat) : ∀ (p : Nat) (l : List Nat), Decidable (isCapChain cfg p l)
  | p, [] => decidable_of_iff (p = 0) (by simp [isCapChain])
  | p, o :: os =>
    haveI := capChainDec cfg (capNext cfg o) os
    decidable_of_iff (p = o ∧ o ≠ 0 ∧ isCapChain cfg (capNext cfg o) os) (by simp [isCapChain])

/-- A two-node capability chain whose nodes both carry id `0x9`:
node `0x40 = (id 0x9, next 0x50)`, node `0x50 = (id 0x9, next 0)`. -/
def capCfgDup : Nat → Nat := fun n =>
  if n = 0x40 then 0x9 else if n = 0x41 then 0x50 else if n = 0x50 then 0x9 else 0

/-- A two-node capability chain with distinct ids:
node `0x40 = (id 0x1, next 0x50)`, node `0x50 = (id 0x5, next 0)`. -/
def capCfgTwo : Nat → Nat := fun n =>
  if n = 0x40 then 0x1 else if n = 0x41 then 0x50 else if n = 0x50 then 0x5 else 0

/-! ## `RawConfig` and `PciDevice::new`

`RawConfig` is `#[repr(C, align(4))]`, 64 bytes, little-endian; the byte
offset of every field is fixed by the declaration order:
`vendor@0x0 device@0x2 status@0x4 command@0x6 rev_id@0x8 class_code@0x9
bist@0xc header_type@0xd latency_timer@0xe cache_line_size@0xf bars@0x10
cardbus_cis_pointer@0x28 subsystem_vendor_id@0x2c subsystem_id@0x2e
expansion_rom_base_address@0x30 capabilities_pointer@0x34 _pad0@0x35
_pad1@0x38 max_latency@0x3c min_grant@0x3d interrupt_pin@0x3e
interrupt_line@0x3f`.  `from_bytes` is a byte-for-byte
`copy_nonoverlapping` into the struct, modelled as an explicit
field-by-field little-endian decoder at those offsets. -/

def NVIDIA_VENDOR_ID : Nat := 0x10de

def NVIDIA_HOPPER_H100 : Nat := 0x2331

/-- The byte at index `i` of the buffer (0 beyond the end, as the buffers fed
to `from_bytes` are zero-initialized 64-byte arrays). -/
def byteAt (bytes : List Nat) (i : Nat) : Nat := bytes.getD i 0 % 256

/-- Little-endian 16-bit field at offset `i`. -/
def le16 (bytes : List Nat) (i : Nat) : Nat := byteAt bytes i + 256 * byteAt bytes (i + 1)

/-- Little-endian 32-bit field at offset `i`. -/
def le32 (bytes : List Nat) (i : Nat) : Nat :=
  byteAt bytes i + 256 * byteAt bytes (i + 1) + 65536 * byteAt bytes (i + 2) +
    16777216 * byteAt bytes (i + 3)

/-- Value of `std::mem::size_of::<RawConfig>()`. -/
def rawConfigSize : Nat := 64

/-- Rust `pub struct RawConfig` of `dev.rs` (the `_pad` fields carry the bytes the
`repr(C)` padding holds after the raw copy). -/
structure RawConfig where
  vendor : Nat
  device : Nat
  status : Nat
  command : Nat
  rev_id : Nat
  class_code : List Nat
  bist : Nat
  header_type : Nat
  latency_timer : Nat
  cache_line_size : Nat
  bars : List Nat
  cardbus_cis_pointer : Nat
  subsystem_vendor_id : Nat
  subsystem_id : Nat
  expansion_rom_base_address : Nat
  capabilities_pointer : Nat
  pad0 : List Nat
  pad1 : Nat
  max_latency : Nat
  min_grant : Nat
  interrupt_pin : Nat
  interrupt_line : Nat
  deriving DecidableEq, Repr

/-- Model of `RawConfig::from_bytes`: length check, then the byte-exact overlay. -/
def RawConfig.from_bytes (bytes : List Nat) : Except DevError RawConfig :=
  if bytes.length < rawConfigSize then .error .shortRead
  else .ok {
    vendor := le16 bytes 0x0
    device := le16 bytes 0x2
    status := le16 bytes 0x4
    command := le16 bytes 0x6
    rev_id := byteAt bytes 0x8
    class_code := [byteAt bytes 0x9, byteAt bytes 0xa, byteAt bytes 0xb]
    bist := byteAt bytes 0xc
    header_type := byteAt bytes 0xd
    latency_timer := byteAt bytes 0xe
    cache_line_size := byteAt bytes 0xf
    bars := [le32 bytes 0x10, le32 bytes 0x14, le32 bytes 0x18, le32 bytes 0x1c,
      le32 bytes 0x20, le32 bytes 0x24]
    cardbus_cis_pointer := le32 bytes 0x28
    subsystem_vendor_id := le16 bytes 0x2c
    subsystem_id := le16 bytes 0x2e
    expansion_rom_base_address := le32 bytes 0x30
    capabilities_pointer := byteAt bytes 0x34
    pad0 := [byteAt bytes 0x35, byteAt bytes 0x36, byteAt bytes 0x37]
    pad1 := le32 bytes 0x38
    max_latency := byteAt bytes 0x3c
    min_grant := byteAt bytes 0x3d
    interrupt_pin := byteAt bytes 0x3e
    interrupt_line := byteAt bytes 0x3f }

/-- The two bytes of a 16-bit field, little-endian. -/
def le16Bytes (n : Nat) : List Nat := [n % 256, n / 256 % 256]

/-- The four bytes of a 32-bit field, little-endian. -/
def le32Bytes (n : Nat) : List Nat :=
  [n % 256, n / 256 % 256, n / 65536 % 256, n / 16777216 % 256]

/-- Re-encoding of a decoded header at the documented offsets. -/
def RawConfig.toBytes (c : RawConfig) : List Nat :=
  le16Bytes c.vendor ++ le16Bytes c.device ++ le16Bytes c.status ++ le16Bytes c.command ++
  [c.rev_id % 256, c.class_code.getD 0 0 % 256, c.class_code.getD 1 0 % 256,
    c.class_code.getD 2 0 % 256, c.bist % 256, c.header_type % 256, c.latency_timer % 256,
    c.cache_line_size % 256] ++
  le32Bytes (c.bars.getD 0 0) ++ le32Bytes (c.bars.getD 1 0) ++ le32Bytes (c.bars.getD 2 0) ++
  le32Bytes (c.bars.getD 3 0) ++ le32Bytes (c.bars.getD 4 0) ++ le32Bytes (c.bars.getD 5 0) ++
  le32Bytes c.cardbus_cis_pointer ++ le16Bytes c.subsystem_vendor_id ++
  le16Bytes c.subsystem_id ++ le32Bytes c.expansion_rom_base_address ++
  [c.capabilities_pointer % 256, c.pad0.getD 0 0 % 256, c.pad0.getD 1 0 % 256,
    c.pad0.getD 2 0 % 256] ++
  le32Bytes c.pad1 ++
  [c.max_latency % 256, c.min_grant % 256, c.interrupt_pin % 256, c.interrupt_line % 256]

/-- Model of `PciDevice::new`: open `<path>/config`, `io::read` into a zeroed 64-byte
buffer (the byte count returned by `read` is ignored, so a short stream
leaves the tail of the buffer zero), decode, then check the identity pair. -/
def pciDeviceNew (stream : List Nat) : Except DevError RawConfig :=
  let buf := stream.take 64 ++ List.replicate (64 - (stream.take 64).length) 0
  match RawConfig.from_bytes buf with
  | .error e => .error e
  | .ok config =>
    if config.device ≠ NVIDIA_HOPPER_H100 ∨ config.vendor ≠ NVIDIA_VENDOR_ID then
      .error .unexpectedDevice
    else .ok config

/-! ## `GpuObject`

`GpuObject::new` maps `bar0.size` bytes of `/dev/mem` at physical address
`bar0.addr`; physical memory is modelled as a byte function
`phys : Nat → Nat`, so the byte at mapped offset `o` is `phys (bar0.addr + o)`.
`read`/`write` are `copy_nonoverlapping` at `bar0_mapped + offset` with no
bounds check; `mmap`/`open` failures are outside the model (assumed to
succeed), and the `unwrap` panic on a malformed `/proc/iomem` range is
`Option.none`. -/

/-- Offset of the boot/identity register. -/
def NV_PMC_BOOT_0 : Nat := 0x0

/-- Offset of the CC-mode register. -/
def NV_CC_MODE : Nat := 0x1182cc

/-- Volatile little-endian `u32` read at byte address `a`
(`ptr::read_volatile::<u32>`). -/
def read32v (mem : Nat → Nat) (a : Nat) : Nat :=
  mem a % 256 + 256 * (mem (a + 1) % 256) + 65536 * (mem (a + 2) % 256) +
    16777216 * (mem (a + 3) % 256)

/-- The `bitflags! CcMode : u8` carrier. -/
structure CcMode where
  bits : Nat
  deriving DecidableEq, Repr

def CC_MODE_OFF : CcMode := ⟨0x0⟩

def CC_MODE_ON : CcMode := ⟨0x1⟩

def CC_MODE_DEV_TOOLS : CcMode := ⟨0x3⟩

/-- Union of the bits of all flags declared in the `bitflags!` block. -/
def ccModeMask : Nat := CC_MODE_OFF.bits ||| CC_MODE_ON.bits ||| CC_MODE_DEV_TOOLS.bits

/-- Rust `CcMode::from_bits_truncate`: keep only the defined flag bits. -/
def CcMode.from_bits_truncate (b : Nat) : CcMode := ⟨b &&& ccModeMask⟩

/-- Model of `GpuObject::read`: allocate `vec![0; size]` and copy `size`
bytes from `bar0_mapped + offset` — no bounds check against `bar0.size`. -/
def gpuRead (phys : Nat → Nat) (bar0 : Bar) (offset size : Nat) :
    Except DevError (List Nat) :=
  .ok ((List.range size).map fun i => phys (bar0.addr + offset + i) % 256)

/-- Model of `GpuObject::write`: copy `data.len()` bytes to
`bar0_mapped + offset` (returning the updated memory) — no bounds check. -/
def gpuWrite (phys : Nat → Nat) (bar0 : Bar) (offset : Nat) (data : List Nat) :
    Except DevError (Nat → Nat) :=
  .ok fun a =>
    if bar0.addr + offset ≤ a ∧ a < bar0.addr + offset + data.length then
      data.getD (a - (bar0.addr + offset)) 0 % 256
    else phys a

/-- Model of `GpuObject::read8`: `read(offset, 1)` then `buf.pop().unwrap()`. -/
def read8 (phys : Nat → Nat) (bar0 : Bar) (offset : Nat) : Except DevError Nat :=
  (gpuRead phys bar0 offset 1).map fun buf => buf.getLastD 0

/-- Model of `GpuObject::query_cc_mode`: one byte at `NV_CC_MODE`, decoded
with `CcMode::from_bits_truncate`. -/
def query_cc_mode (phys : Nat → Nat) (bar0 : Bar) : Except DevError CcMode :=
  (read8 phys bar0 NV_CC_MODE).map CcMode.from_bits_truncate

/-- Parsing of the matched `/proc/iomem` line inside `sanity_check`:
`line.trim().split(" ")`, first token, `split("-")`, and
`from_str_radix(_, 16).unwrap()` on the two parts; `none` models the panic of
`unwrap`/out-of-bounds indexing on a malformed line. -/
def parseIomemRange (line : String) : Option (Nat × Nat) :=
  match splitOnChar ' ' (trimChars line.toList) with
  | [] => none
  | tok :: _ =>
    let parts := (splitOnChar '-' tok).map fromStrRadix16
    match parts.get? 0, parts.get? 1 with
    | some (some s), some (some e) => some (s, e)
    | _, _ => none

/-- Model of `GpuObject::sanity_check`: re-read the boot register of the
primary mapping, fail on all-ones; then find the first `/proc/iomem` line
containing `target`, map that line's own range and fail if its boot value
disagrees; skip the cross check when no line matches. -/
def sanity_check (phys : Nat → Nat) (mappedAddr : Nat) (iomem : List String)
    (target : String) : Option (Except DevError Unit) :=
  if read32v phys mappedAddr = 0xffffffff then some (.error .sanityCheckFailed)
  else
    match iomem.find? fun line => containsSub target.toList line.toList with
    | none => some (.ok ())
    | some line =>
      match parseIomemRange line with
      | none => none
      | some (s, _e) =>
        if read32v phys s ≠ read32v phys mappedAddr then some (.error .sanityCheckFailed)
        else some (.ok ())

/-- Model of `GpuObject::new`: map BAR0, check the boot register for
all-ones, then run `sanity_check` with the `nvidia` marker. -/
def gpu_new (phys : Nat → Nat) (bar0 : Bar) (iomem : List String) :
    Option (Except DevError Unit) :=
  if read32v phys bar0.addr = 0xffffffff then some (.error .sanityCheckFailed)
  else sanity_check phys bar0.addr iomem "nvidia"

/-- An `/proc/iomem`-style listing whose second line carries the `nvidia`
marker with the range `bb000000-bb0fffff`. -/
def iomemExample : List String :=
  ["  ab000000-ab0fffff : System RAM",
   "  bb000000-bb0fffff : nvidia",
   "  cc000000-ccffffff : PCI Bus"]

/-! ## Theorems -/

theorem initBarsGo_append_stored (l : List ResourceLine) :
    ∀ stored : List Bar, stored.length + l.length ≤ 6 →
      initBarsGo l stored.length (stored ++ List.replicate (6 - stored.length) Bar.default) =
        (stored ++ (l.filter fun t => decide (keepLine t)).map mkBar) ++
          List.replicate (6 - stored.length - ((l.filter fun t => decide (keepLine t)).map mkBar).length)
            Bar.default := by
  induction l with
  | nil =>
    intro stored _
    simp [initBarsGo]
  | cons hd tl ih =>
    intro stored hle
    simp only [List.length_cons] at hle
    by_cases hc : keepLine hd
    · rw [initBarsGo, if_pos hc]
      have hset : (stored ++ List.replicate (6 - stored.length) Bar.default).set
          stored.length (mkBar hd) =
          (stored ++ [mkBar hd]) ++ List.replicate (6 - (stored.length + 1)) Bar.default := by
        rw [List.set_append, if_neg (by omega)]
        have h1 : 6 - stored.length = (6 - (stored.length + 1)) + 1 := by omega
        rw [Nat.sub_self, h1, List.replicate_succ, List.set_cons_zero, List.append_assoc,
          List.singleton_append]
      rw [hset]
      have h2 : stored.length + 1 = (stored ++ [mkBar hd]).length := by simp
      rw [h2, ih (stored ++ [mkBar hd]) (by simp; omega)]
      rw [List.filter_cons, if_pos (by simpa using hc)]
      simp [List.append_assoc]
      omega
    · rw [initBarsGo, if_neg hc, ih stored (by omega)]
      rw [List.filter_cons, if_neg (by simpa using hc)]

/-- The compaction law: `init_bars` fills the six-slot array with exactly the
kept lines' descriptors, in order, and leaves the remaining slots default. -/
theorem initBars_eq_storedBars (lines : List ResourceLine) :
    initBars lines =
      storedBars lines ++ List.replicate (6 - (storedBars lines).length) Bar.default := by
  have h := initBarsGo_append_stored (lines.take 6) [] (by simp)
  simpa [initBars, storedBars] using h

/-- When every line parses, the text-level loop agrees with the loop over the
parsed triples (and parsing preserves the number of lines). -/
theorem initBarsTextGo_eq_mapM (l : List String) :
    ∀ (ts : List ResourceLine) (i : Nat) (bars : List Bar),
      l.mapM parseResourceLine = some ts →
      initBarsTextGo l i bars = .ok (initBarsGo ts i bars) ∧ ts.length = l.length := by
  induction l with
  | nil =>
    intro ts i bars h
    simp only [List.mapM_nil, Option.pure_def, Option.some.injEq] at h
    subst h
    simp [initBarsTextGo, initBarsGo]
  | cons s rest ih =>
    intro ts i bars h
    rw [List.mapM_cons] at h
    cases hp : parseResourceLine s with
    | none => rw [hp] at h; simp at h
    | some t =>
      rw [hp] at h
      cases hm : rest.mapM parseResourceLine with
      | none => rw [hm] at h; simp at h
      | some ts2 =>
        rw [hm] at h
        simp at h
        subst h
        by_cases hk : keepLine t
        · obtain ⟨h1, h2⟩ := ih ts2 (i + 1) (bars.set i (mkBar t)) hm
          refine ⟨?_, by simp [h2]⟩
          simp [initBarsTextGo, hp, if_pos hk, initBarsGo, h1]
        · obtain ⟨h1, h2⟩ := ih ts2 i bars hm
          refine ⟨?_, by simp [h2]⟩
          simp [initBarsTextGo, hp, hk, initBarsGo, h1]

theorem capsInsert_length_of_not_mem (caps : List (Nat × Nat)) (k v : Nat)
    (h : ∀ e ∈ caps, e.1 ≠ k) : (capsInsert caps k v).length = caps.length + 1 := by
  rw [capsInsert, if_neg]
  · simp
  · intro hc
    simp only [List.any_eq_true, decide_eq_true_eq] at hc
    obtain ⟨e, he, hek⟩ := hc
    exact h e he hek

theorem lookup_map_replace_self (caps : List (Nat × Nat)) (k v : Nat)
    (hmem : (caps.any fun e => e.1 = k) = true) :
    (caps.map fun e => if e.1 = k then (k, v) else e).lookup k = some v := by
  induction caps with
  | nil => simp at hmem
  | cons e rest ih =>
    obtain ⟨ek, ev⟩ := e
    by_cases hek : ek = k
    · simp [hek, List.lookup_cons]
    · have h2 : (rest.any fun e => e.1 = k) = true := by
        simp only [List.any_cons, Bool.or_eq_true, decide_eq_true_eq] at hmem
        simpa using hmem.resolve_left hek
      have hke : (k == ek) = false := by
        simp
        exact fun h => hek h.symm
      simp only [List.map_cons, if_neg hek, List.lookup_cons, hke, Bool.false_eq_true,
        if_false]
      exact ih h2

theorem lookup_map_replace_other (caps : List (Nat × Nat)) (k v q : Nat) (hq : q ≠ k) :
    (caps.map fun e => if e.1 = k then (k, v) else e).lookup q = caps.lookup q := by
  induction caps with
  | nil => simp
  | cons e rest ih =>
    obtain ⟨ek, ev⟩ := e
    by_cases hek : ek = k
    · have hqe : (q == ek) = false := by
        simp
        exact fun h => hq (h.trans hek)
      have hqk : (q == k) = false := by simpa using hq
      simp [hek, List.lookup_cons, hqe, hqk, ih]
    · by_cases heq : ek = q
      · simp [hek, List.lookup_cons, heq.symm]
      · have hqe : (q == ek) = false := by
          simp
          exact fun h => heq h.symm
        simp [hek, List.lookup_cons, hqe, ih]

theorem lookup_append_single_self (caps : List (Nat × Nat)) (k v : Nat)
    (hmem : ¬ (caps.any fun e => e.1 = k) = true) :
    (caps ++ [(k, v)]).lookup k = some v := by
  induction caps with
  | nil => simp [List.lookup_cons]
  | cons e rest ih =>
    obtain ⟨ek, ev⟩ := e
    have hek : ¬ ek = k := fun h => hmem (by simp [h])
    have hke : (k == ek) = false := by
      simp
      exact fun h => hek h.symm
    simp only [List.cons_append, List.lookup_cons, hke, Bool.false_eq_true, if_false]
    exact ih fun h => hmem (by simp [List.any_cons, h])

theorem lookup_append_single_other (caps : List (Nat × Nat)) (k v q : Nat) (hq : q ≠ k) :
    (caps ++ [(k, v)]).lookup q = caps.lookup q := by
  induction caps with
  | nil => simp [List.lookup_cons, (by simpa using hq : (q == k) = false)]
  | cons e rest ih =>
    obtain ⟨ek, ev⟩ := e
    by_cases heq : ek = q
    · simp [List.lookup_cons, heq.symm]
    · have hqe : (q == ek) = false := by
        simp
        exact fun h => heq h.symm
      simp [List.lookup_cons, hqe, ih]

theorem capsInsert_lookup_self (caps : List (Nat × Nat)) (k v : Nat) :
    (capsInsert caps k v).lookup k = some v := by
  rw [capsInsert]
  split
  · rename_i h
    exact lookup_map_replace_self caps k v (by simpa using h)
  · rename_i h
    exact lookup_append_single_self caps k v (by simpa using h)

theorem capsInsert_lookup_other (caps : List (Nat × Nat)) (k v q : Nat) (hq : q ≠ k) :
    (capsInsert caps k v).lookup q = caps.lookup q := by
  rw [capsInsert]
  split
  · exact lookup_map_replace_other caps k v q hq
  · exact lookup_append_single_other caps k v q hq

theorem capsInsert_key_mem (caps : List (Nat × Nat)) (k v : Nat) :
    ∀ e ∈ capsInsert caps k v, e.1 = k ∨ ∃ e2 ∈ caps, e.1 = e2.1 := by
  intro e he
  rw [capsInsert] at he
  split at he
  · obtain ⟨e2, he2, heq⟩ := List.mem_map.mp he
    by_cases h2 : e2.1 = k
    · left
      rw [← heq]
      simp [h2]
    · right
      exact ⟨e2, he2, by rw [← heq]; simp [h2]⟩
  · rcases List.mem_append.mp he with h | h
    · right
      exact ⟨e, h, rfl⟩
    · left
      simp at h
      simp [h]

theorem initCapsGo_chain (cfg : Nat → Nat) (chain : List Nat) :
    ∀ (ptr fuel : Nat) (caps : List (Nat × Nat)),
      isCapChain cfg ptr chain →
      chain.length ≤ fuel →
      (chain.map (capId cfg)).Nodup →
      (∀ o ∈ chain, ∀ e ∈ caps, e.1 ≠ capId cfg o) →
      ∃ table, initCapsGo cfg fuel ptr caps = some table ∧
        table.length = caps.length + chain.length ∧
        (∀ o ∈ chain, table.lookup (capId cfg o) = some o) ∧
        (∀ k, k ∉ chain.map (capId cfg) → table.lookup k = caps.lookup k) := by
  induction chain with
  | nil =>
    intro ptr fuel caps hch _ _ _
    have hptr : ptr = 0 := hch
    subst hptr
    refine ⟨caps, ?_, by simp, by simp, by simp⟩
    cases fuel <;> simp [initCapsGo]
  | cons o os ih =>
    intro ptr fuel caps hch hfuel hnd hdisj
    obtain ⟨rfl, ho, hch2⟩ := hch
    simp only [List.length_cons] at hfuel
    obtain ⟨f, rfl⟩ : ∃ f, fuel = f + 1 := ⟨fuel - 1, by omega⟩
    simp only [List.map_cons, List.nodup_cons] at hnd
    obtain ⟨hni, hnd2⟩ := hnd
    have hdisj2 : ∀ q ∈ os, ∀ e ∈ capsInsert caps (capId cfg ptr) ptr, e.1 ≠ capId cfg q := by
      intro q hq e he
      rcases capsInsert_key_mem caps (capId cfg ptr) ptr e he with h | ⟨e2, he2, heq⟩
      · rw [h]
        intro hcon
        exact hni (by rw [hcon]; exact List.mem_map_of_mem _ hq)
      · rw [heq]
        exact hdisj q (List.mem_cons_of_mem _ hq) e2 he2
    obtain ⟨table, h1, h2, h3, h4⟩ :=
      ih (capNext cfg ptr) f (capsInsert caps (capId cfg ptr) ptr) hch2 (by omega) hnd2 hdisj2
    have hlen : (capsInsert caps (capId cfg ptr) ptr).length = caps.length + 1 :=
      capsInsert_length_of_not_mem caps (capId cfg ptr) ptr
        (fun e he => hdisj ptr (List.mem_cons_self ptr os) e he)
    refine ⟨table, ?_, ?_, ?_, ?_⟩
    · rw [initCapsGo, if_neg ho]
      exact h1
    · simp only [List.length_cons]
      omega
    · intro q hq
      rcases List.mem_cons.mp hq with rfl | hq2
      · rw [h4 (capId cfg q) hni]
        exact capsInsert_lookup_self caps (capId cfg q) q
      · exact h3 q hq2
    · intro k hk
      simp only [List.map_cons, List.mem_cons, not_or] at hk
      obtain ⟨hk1, hk2⟩ := hk
      rw [h4 k hk2]
      exact capsInsert_lookup_other caps (capId cfg ptr) ptr k hk1

/-- C8: for every device whose header's capabilities pointer equals `0xff`,
`init_caps` fails with `NoCapabilities` and the capability table is left
exactly as it was (empty at the only call site), no entry being inserted
before the failure. -/
theorem init_caps_ff_pointer (cfg : Nat → Nat) (fuel : Nat) (caps : List (Nat × Nat)) :
    init_caps cfg 0xff fuel caps = some (.error .noCapabilities, caps) := by
  simp [init_caps]

/-- C10: for every device whose header's capabilities pointer equals `0`,
`init_caps` returns success with the capability table left unchanged (empty at
the only call site): the zero pointer terminates the walk immediately instead
of raising the `NoCapabilities` error reserved for the `0xff` sentinel. -/
theorem init_caps_zero_pointer (cfg : Nat → Nat) (fuel : Nat) (caps : List (Nat × Nat)) :
    init_caps cfg 0 fuel caps = some (.ok (), caps) := by
  cases fuel <;> simp [init_caps, initCapsGo]

/-- C4 counterexample: a well-formed chain of length 2 whose two nodes carry
the same capability id produces a table with a single entry — `HashMap::insert`
keyed by id overwrites the first node's entry — refuting the claim that the
table has exactly `k` entries with no deduplication of repeated ids. -/
theorem init_caps_duplicate_id_dedups :
    isCapChain capCfgDup 0x40 [0x40, 0x50] ∧
    init_caps capCfgDup 0x40 2 [] = some (.ok (), [(0x9, 0x50)]) ∧
    ([(0x9, 0x50)] : List (Nat × Nat)).length ≠ ([0x40, 0x50] : List Nat).length := by
  refine ⟨by decide, by decide, by decide⟩

/-- C4 amended: for every well-formed capability chain of length `k` whose
capability ids are pairwise distinct (and a capabilities pointer other than
`0xff`), `init_caps` succeeds and the table has exactly `k` entries, each
keyed by its capability id and mapping to that node's offset; a repeated id
would instead overwrite the earlier node's entry (`HashMap` keyed by id). -/
theorem init_caps_distinct_chain (cfg : Nat → Nat) (capPtr fuel : Nat) (chain : List Nat)
    (hch : isCapChain cfg capPtr chain) (hff : capPtr ≠ 0xff)
    (hnd : (chain.map (capId cfg)).Nodup) (hfuel : chain.length ≤ fuel) :
    ∃ table, init_caps cfg capPtr fuel [] = some (.ok (), table) ∧
      table.length = chain.length ∧
      ∀ o ∈ chain, table.lookup (capId cfg o) = some o := by
  obtain ⟨table, h1, h2, h3, _⟩ :=
    initCapsGo_chain cfg chain capPtr fuel [] hch hfuel hnd (by simp)
  refine ⟨table, ?_, by simpa using h2, h3⟩
  simp [init_caps, hff, h1]

/-- Witness for the amended C4 at the concrete distinct-id chain
`0x40 (id 0x1) → 0x50 (id 0x5) → end`. -/
theorem init_caps_distinct_chain_witness :
    (isCapChain capCfgTwo 0x40 [0x40, 0x50] ∧ (0x40 : Nat) ≠ 0xff ∧
      (([0x40, 0x50] : List Nat).map (capId capCfgTwo)).Nodup ∧
      ([0x40, 0x50] : List Nat).length ≤ 2) ∧
    ∃ table, init_caps capCfgTwo 0x40 2 [] = some (.ok (), table) ∧
      table.length = ([0x40, 0x50] : List Nat).length ∧
      ∀ o ∈ ([0x40, 0x50] : List Nat), table.lookup (capId capCfgTwo o) = some o :=
  ⟨⟨by decide, by decide, by decide, by decide⟩,
    init_caps_distinct_chain capCfgTwo 0x40 2 [0x40, 0x50]
      (by decide) (by decide) (by decide) (by decide)⟩

/-- C7: for every resource table, `init_bars` examines only its first six
lines and, in order, skips a line whose flags have bit 0 set or whose start
address is 0 (consuming no slot), and stores every other line as a descriptor
with `address = start_address`, `size = end_address - start_address + 1` and
`is_64bit = (((flags >> 1) & 0x3) == 0x2)` at the next free slot index, which
increments only on a stored BAR (slots are compacted). -/
theorem init_bars_compaction (lines : List String) (ts : List ResourceLine)
    (hp : (lines.take 6).mapM parseResourceLine = some ts) :
    init_bars lines =
      .ok ((ts.filter fun t => decide (keepLine t)).map mkBar ++
        List.replicate (6 - ((ts.filter fun t => decide (keepLine t)).map mkBar).length)
          Bar.default) := by
  obtain ⟨h1, h2⟩ :=
    initBarsTextGo_eq_mapM (lines.take 6) ts 0 (List.replicate 6 Bar.default) hp
  have hle : ts.length ≤ 6 := by
    rw [h2]; exact List.length_take_le 6 lines
  rw [init_bars, h1]
  have h3 := initBarsGo_append_stored ts [] (by simpa using hle)
  simpa using h3

/-- Witness for C7 at a concrete seven-line table: line 1 is stored (32-bit),
line 2 is skipped (zero start address), line 3 is skipped (flags bit 0 set),
line 4 is stored (64-bit), line 5 is skipped, line 6 is stored, and the
unparseable seventh line is never examined. -/
theorem init_bars_compaction_witness :
    (["00000000bb000000 00000000bb0fffff 0000000000040000",
      "0000000000000000 0000000000000000 0000000000000000",
      "000000000000c000 000000000000c07f 0000000000040101",
      "00000000c0000000 00000000c1ffffff 000000000014220c",
      "0000000000000000 0000000000000000 0000000000000000",
      "00000000d0000000 00000000d0000fff 0000000000040200",
      "not a resource line"].take 6).mapM parseResourceLine =
      some [(0xbb000000, 0xbb0fffff, 0x40000), (0, 0, 0), (0xc000, 0xc07f, 0x40101),
        (0xc0000000, 0xc1ffffff, 0x14220c), (0, 0, 0), (0xd0000000, 0xd0000fff, 0x40200)] ∧
    init_bars
      ["00000000bb000000 00000000bb0fffff 0000000000040000",
        "0000000000000000 0000000000000000 0000000000000000",
        "000000000000c000 000000000000c07f 0000000000040101",
        "00000000c0000000 00000000c1ffffff 000000000014220c",
        "0000000000000000 0000000000000000 0000000000000000",
        "00000000d0000000 00000000d0000fff 0000000000040200",
        "not a resource line"] =
      .ok (([(0xbb000000, 0xbb0fffff, 0x40000), (0, 0, 0), (0xc000, 0xc07f, 0x40101),
          (0xc0000000, 0xc1ffffff, 0x14220c), (0, 0, 0),
          ((0xd0000000 : Nat), (0xd0000fff : Nat), (0x40200 : Nat))].filter
            fun t => decide (keepLine t)).map mkBar ++
        List.replicate
          (6 - (([(0xbb000000, 0xbb0fffff, 0x40000), (0, 0, 0), (0xc000, 0xc07f, 0x40101),
            (0xc0000000, 0xc1ffffff, 0x14220c), (0, 0, 0),
            ((0xd0000000 : Nat), (0xd0000fff : Nat), (0x40200 : Nat))].filter
              fun t => decide (keepLine t)).map mkBar).length)
          Bar.default) :=
  ⟨by decide,
    init_bars_compaction
      ["00000000bb000000 00000000bb0fffff 0000000000040000",
        "0000000000000000 0000000000000000 0000000000000000",
        "000000000000c000 000000000000c07f 0000000000040101",
        "00000000c0000000 00000000c1ffffff 000000000014220c",
        "0000000000000000 0000000000000000 0000000000000000",
        "00000000d0000000 00000000d0000fff 0000000000040200",
        "not a resource line"]
      [(0xbb000000, 0xbb0fffff, 0x40000), (0, 0, 0), (0xc000, 0xc07f, 0x40101),
        (0xc0000000, 0xc1ffffff, 0x14220c), (0, 0, 0), (0xd0000000, 0xd0000fff, 0x40200)]
      (by decide)⟩

/-- C3 counterexample: the resource-table line
`00000000bb000000 00000000bb0fffff 0000000000040000` is stored with
`is_64 = false` (bits [2:1] of `0x40000` are `0b00`, not `0b10`), refuting
the claimed `is_64bit = true`. -/
theorem init_bars_example_line_not_64bit :
    init_bars ["00000000bb000000 00000000bb0fffff 0000000000040000"] =
      .ok (⟨0xbb000000, 0x100000, false⟩ :: List.replicate 5 Bar.default) ∧
    ¬ ∃ bs, init_bars ["00000000bb000000 00000000bb0fffff 0000000000040000"] = .ok bs ∧
        (bs.getD 0 Bar.default).is_64 = true := by
  refine ⟨by decide, ?_⟩
  rintro ⟨bs, hbs, h64⟩
  rw [(by decide :
    init_bars ["00000000bb000000 00000000bb0fffff 0000000000040000"] =
      .ok ((⟨0xbb000000, 0x100000, false⟩ : Bar) :: List.replicate 5 Bar.default))] at hbs
  obtain rfl := Except.ok.inj hbs
  simp at h64

/-- C3 amended: processing the resource-table line
`00000000bb000000 00000000bb0fffff 0000000000040000` through `init_bars`
stores a BAR descriptor with `address = 0xbb000000`, `size = 0x100000` and
`is_64bit = false`. -/
theorem init_bars_example_line :
    init_bars ["00000000bb000000 00000000bb0fffff 0000000000040000"] =
      .ok (⟨0xbb000000, 0x100000, false⟩ :: List.replicate 5 Bar.default) := by
  decide

theorem byteAt_lt (bytes : List Nat) (i : Nat) : byteAt bytes i < 256 := by
  simp [byteAt]
  omega

theorem byteAt_mod (bytes : List Nat) (i : Nat) : byteAt bytes i % 256 = byteAt bytes i := by
  simp [byteAt]

theorem le16Bytes_le16 (bytes : List Nat) (i : Nat) :
    le16Bytes (le16 bytes i) = [byteAt bytes i, byteAt bytes (i + 1)] := by
  simp only [le16Bytes, le16, byteAt, List.cons.injEq, and_true]
  constructor <;> omega

theorem le32Bytes_le32 (bytes : List Nat) (i : Nat) :
    le32Bytes (le32 bytes i) =
      [byteAt bytes i, byteAt bytes (i + 1), byteAt bytes (i + 2), byteAt bytes (i + 3)] := by
  simp only [le32Bytes, le32, byteAt, List.cons.injEq, and_true]
  refine ⟨by omega, by omega, by omega, by omega⟩

theorem take_eq_range_map_byteAt (l : List Nat) :
    ∀ n, n ≤ l.length → (∀ b ∈ l, b < 256) →
      l.take n = (List.range n).map (byteAt l) := by
  intro n
  induction n with
  | zero => simp
  | succ m ih =>
    intro hle hb
    have hm : m < l.length := by omega
    rw [List.take_succ, List.range_succ, List.map_append, ih (by omega) hb]
    congr 1
    rw [List.getElem?_eq_getElem hm]
    have hbm : l[m] < 256 := hb _ (List.getElem_mem hm)
    simp only [Option.toList_some, List.map_cons, List.map_nil, List.cons.injEq, and_true]
    rw [byteAt, List.getD_eq_getElem?_getD, List.getElem?_eq_getElem hm]
    simp
    omega

set_option maxHeartbeats 1000000 in
/-- C9: for every byte sequence of at least the header size whose elements are
bytes, decoding is a pure function of the bytes, each field taken from its
fixed little-endian offset, and re-encoding the decoded header at those
offsets reproduces the 64 input bytes that were decoded. -/
theorem from_bytes_round_trip (bytes : List Nat) (hlen : 64 ≤ bytes.length)
    (hbyte : ∀ b ∈ bytes, b < 256) :
    ∃ c, RawConfig.from_bytes bytes = .ok c ∧ c.toBytes = bytes.take 64 := by
  rw [RawConfig.from_bytes, if_neg (by simp [rawConfigSize]; omega)]
  refine ⟨_, rfl, ?_⟩
  rw [take_eq_range_map_byteAt bytes 64 hlen hbyte]
  simp only [RawConfig.toBytes, le16Bytes_le16, le32Bytes_le32, byteAt_mod,
    List.getD_cons_zero, List.getD_cons_succ, List.range_succ, List.map_append,
    List.map_cons, List.map_nil, List.range_zero, List.cons_append, List.nil_append,
    List.append_nil]

theorem from_bytes_short (bytes : List Nat) (h : bytes.length < 64) :
    RawConfig.from_bytes bytes = .error .shortRead := by
  rw [RawConfig.from_bytes, if_pos (by simpa [rawConfigSize] using h)]

/-- C5 (code_bug evidence): a configuration stream of only 4 bytes — fewer
than the 64 the header needs — is accepted by `PciDevice::new`: the byte count
returned by `io::read` is ignored, the zeroed buffer is decoded whole, and
construction succeeds instead of failing with `ShortRead`. -/
theorem pciDeviceNew_short_stream_succeeds :
    ([0xde, 0x10, 0x31, 0x23] : List Nat).length < rawConfigSize ∧
    (pciDeviceNew [0xde, 0x10, 0x31, 0x23]).toOption.isSome = true := by decide

/-- Witness for C9 at a concrete 64-byte header. -/
theorem from_bytes_round_trip_witness :
    (64 ≤ ([0xde, 0x10, 0x31, 0x23, 0x00, 0x01, 0x10, 0x00, 0xa1, 0x00, 0x02, 0x03, 0x00, 0x80, 0x00, 0x10, 0x0c, 0x00, 0x00, 0xbb, 0x0c, 0x00, 0x00, 0x00, 0x00, 0x00, 0x00, 0x28, 0x0c, 0x00, 0x00, 0x00, 0x0c, 0x00, 0x00, 0x2c, 0x00, 0x00, 0x00, 0x00, 0x00, 0x00, 0x00, 0x00, 0xde, 0x10, 0x7e, 0x16, 0x00, 0x00, 0x00, 0x00, 0x40, 0x00, 0x00, 0x00, 0x00, 0x00, 0x00, 0x00, 0x00, 0x00, 0x03, 0xff] : List Nat).length ∧ ∀ b ∈ ([0xde, 0x10, 0x31, 0x23, 0x00, 0x01, 0x10, 0x00, 0xa1, 0x00, 0x02, 0x03, 0x00, 0x80, 0x00, 0x10, 0x0c, 0x00, 0x00, 0xbb, 0x0c, 0x00, 0x00, 0x00, 0x00, 0x00, 0x00, 0x28, 0x0c, 0x00, 0x00, 0x00, 0x0c, 0x00, 0x00, 0x2c, 0x00, 0x00, 0x00, 0x00, 0x00, 0x00, 0x00, 0x00, 0xde, 0x10, 0x7e, 0x16, 0x00, 0x00, 0x00, 0x00, 0x40, 0x00, 0x00, 0x00, 0x00, 0x00, 0x00, 0x00, 0x00, 0x00, 0x03, 0xff] : List Nat), b < 256) ∧
    ∃ c, RawConfig.from_bytes ([0xde, 0x10, 0x31, 0x23, 0x00, 0x01, 0x10, 0x00, 0xa1, 0x00, 0x02, 0x03, 0x00, 0x80, 0x00, 0x10, 0x0c, 0x00, 0x00, 0xbb, 0x0c, 0x00, 0x00, 0x00, 0x00, 0x00, 0x00, 0x28, 0x0c, 0x00, 0x00, 0x00, 0x0c, 0x00, 0x00, 0x2c, 0x00, 0x00, 0x00, 0x00, 0x00, 0x00, 0x00, 0x00, 0xde, 0x10, 0x7e, 0x16, 0x00, 0x00, 0x00, 0x00, 0x40, 0x00, 0x00, 0x00, 0x00, 0x00, 0x00, 0x00, 0x00, 0x00, 0x03, 0xff] : List Nat) = .ok c ∧
      c.toBytes = ([0xde, 0x10, 0x31, 0x23, 0x00, 0x01, 0x10, 0x00, 0xa1, 0x00, 0x02, 0x03, 0x00, 0x80, 0x00, 0x10, 0x0c, 0x00, 0x00, 0xbb, 0x0c, 0x00, 0x00, 0x00, 0x00, 0x00, 0x00, 0x28, 0x0c, 0x00, 0x00, 0x00, 0x0c, 0x00, 0x00, 0x2c, 0x00, 0x00, 0x00, 0x00, 0x00, 0x00, 0x00, 0x00, 0xde, 0x10, 0x7e, 0x16, 0x00, 0x00, 0x00, 0x00, 0x40, 0x00, 0x00, 0x00, 0x00, 0x00, 0x00, 0x00, 0x00, 0x00, 0x03, 0xff] : List Nat).take 64 :=
  ⟨⟨by decide, by decide⟩,
    from_bytes_round_trip [0xde, 0x10, 0x31, 0x23, 0x00, 0x01, 0x10, 0x00, 0xa1, 0x00, 0x02, 0x03, 0x00, 0x80, 0x00, 0x10, 0x0c, 0x00, 0x00, 0xbb, 0x0c, 0x00, 0x00, 0x00, 0x00, 0x00, 0x00, 0x28, 0x0c, 0x00, 0x00, 0x00, 0x0c, 0x00, 0x00, 0x2c, 0x00, 0x00, 0x00, 0x00, 0x00, 0x00, 0x00, 0x00, 0xde, 0x10, 0x7e, 0x16, 0x00, 0x00, 0x00, 0x00, 0x40, 0x00, 0x00, 0x00, 0x00, 0x00, 0x00, 0x00, 0x00, 0x00, 0x03, 0xff] (by decide) (by decide)⟩

/-- C1 counterexample: with `bar0.size = 4` and width 4, the access at
`offset = bar0.size - width + 1 = 1` does not fail with `OutOfRange` — both
`read` and `write` perform the raw copy with no bounds check. -/
theorem read_write_no_oob_check :
    gpuRead (fun _ => 0) ⟨0x1000, 4, false⟩ (4 - 4 + 1) 4 = .ok [0, 0, 0, 0] ∧
    gpuRead (fun _ => 0) ⟨0x1000, 4, false⟩ (4 - 4 + 1) 4 ≠ .error .outOfRange ∧
    gpuWrite (fun _ => 0) ⟨0x1000, 4, false⟩ (4 - 4 + 1) [1, 2, 3, 4] ≠ .error .outOfRange := by
  refine ⟨by decide, by decide, by simp [gpuWrite]⟩

/-- C1 amended: `read` and `write` are unchecked and never fail: for every
offset and width, `read` succeeds with a `width`-byte buffer copied from
`mapped_base + offset` and `write` succeeds, even when `offset + width`
exceeds `bar0.size`; no `OutOfRange` error exists on these paths. -/
theorem read_write_unchecked (phys : Nat → Nat) (bar0 : Bar) (offset width : Nat)
    (data : List Nat) :
    (∃ buf, gpuRead phys bar0 offset width = .ok buf ∧ buf.length = width) ∧
    ∃ mem2, gpuWrite phys bar0 offset data = .ok mem2 := by
  constructor
  · exact ⟨(List.range width).map fun i => phys (bar0.addr + offset + i) % 256, rfl, by simp⟩
  · exact ⟨_, rfl⟩

/-- C6 counterexample: the CC-mode byte `0xfd` matches none of the encodings
Off = 0x0, On = 0x1, DevToolsOn = 0x3, yet `query_cc_mode` returns the On
encoding — `from_bits_truncate` keeps only the known bits (`& 0x3`), there is
no unknown/reserved variant. -/
theorem query_cc_mode_truncates :
    query_cc_mode (fun _ => 0xfd) ⟨0xbb000000, 0x1200000, false⟩ = .ok CC_MODE_ON ∧
    (0xfd : Nat) ≠ CC_MODE_OFF.bits ∧ (0xfd : Nat) ≠ CC_MODE_ON.bits ∧
    (0xfd : Nat) ≠ CC_MODE_DEV_TOOLS.bits := by
  refine ⟨rfl, by decide, by decide, by decide⟩

set_option maxRecDepth 4000 in
/-- C6 amended: `query_cc_mode` reads the byte at `NV_CC_MODE` and truncates
it to the defined flag bits: the result is always `byte % 4`, so every
undecodable pattern is silently mapped onto the four low encodings. -/
theorem query_cc_mode_eq_truncation (phys : Nat → Nat) (bar0 : Bar) :
    query_cc_mode phys bar0 = .ok ⟨phys (bar0.addr + NV_CC_MODE) % 256 % 4⟩ := by
  have h : ∀ b, b < 256 → b &&& ccModeMask = b % 4 := by decide
  have hlt : phys (bar0.addr + NV_CC_MODE) % 256 < 256 := Nat.mod_lt _ (by omega)
  simp [query_cc_mode, read8, gpuRead, List.range_succ, CcMode.from_bits_truncate,
    Except.map, h _ hlt]

/-- C2: provided the found marker line parses, `GpuObject` construction fails
with `SanityCheckFailed` exactly when the 32-bit boot value at offset 0 of the
BAR0 mapping is `0xffffffff`, or the first `/proc/iomem` line containing the
`nvidia` marker denotes a range whose independently read boot value differs;
with no marker line (and a live boot value) the cross-mapping check is skipped
and construction proceeds. -/
theorem gpu_new_sanity (phys : Nat → Nat) (bar0 : Bar) (iomem : List String)
    (hparse : ∀ line,
      iomem.find? (fun l => containsSub "nvidia".toList l.toList) = some line →
      (parseIomemRange line).isSome) :
    (gpu_new phys bar0 iomem = some (.error .sanityCheckFailed) ↔
      (read32v phys bar0.addr = 0xffffffff ∨
        ∃ line s e, iomem.find? (fun l => containsSub "nvidia".toList l.toList) = some line ∧
          parseIomemRange line = some (s, e) ∧ read32v phys s ≠ read32v phys bar0.addr)) ∧
    (gpu_new phys bar0 iomem = some (.ok ()) ↔
      ¬ (read32v phys bar0.addr = 0xffffffff ∨
        ∃ line s e, iomem.find? (fun l => containsSub "nvidia".toList l.toList) = some line ∧
          parseIomemRange line = some (s, e) ∧ read32v phys s ≠ read32v phys bar0.addr)) := by
  set C := (read32v phys bar0.addr = 0xffffffff ∨
    ∃ line s e, iomem.find? (fun l => containsSub "nvidia".toList l.toList) = some line ∧
      parseIomemRange line = some (s, e) ∧ read32v phys s ≠ read32v phys bar0.addr) with hC
  by_cases hboot : read32v phys bar0.addr = 0xffffffff
  · have hres : gpu_new phys bar0 iomem = some (.error .sanityCheckFailed) := by
      rw [gpu_new, if_pos hboot]
    have hc : C := by
      rw [hC]
      exact Or.inl hboot
    rw [hres]
    exact ⟨iff_of_true rfl hc, iff_of_false (by simp) fun h => h hc⟩
  · cases hf : iomem.find? fun l => containsSub "nvidia".toList l.toList with
    | none =>
      have hres : gpu_new phys bar0 iomem = some (.ok ()) := by
        rw [gpu_new, if_neg hboot, sanity_check, if_neg hboot, hf]
      have hnc : ¬ C := by
        rw [hC]
        rintro (h | ⟨l2, s2, e2, hl2, _, _⟩)
        · exact hboot h
        · rw [hf] at hl2
          exact absurd hl2 (by simp)
      rw [hres]
      exact ⟨iff_of_false (by simp) hnc, iff_of_true rfl hnc⟩
    | some line =>
      obtain ⟨⟨s, e⟩, hpe⟩ : ∃ p, parseIomemRange line = some p :=
        Option.isSome_iff_exists.mp (hparse line hf)
      by_cases hval : read32v phys s ≠ read32v phys bar0.addr
      · have hres : gpu_new phys bar0 iomem = some (.error .sanityCheckFailed) := by
          rw [gpu_new, if_neg hboot, sanity_check, if_neg hboot, hf]
          simp only [hpe]
          rw [if_pos hval]
        have hc : C := by
          rw [hC]
          exact Or.inr ⟨line, s, e, hf, hpe, hval⟩
        rw [hres]
        exact ⟨iff_of_true rfl hc, iff_of_false (by simp) fun h => h hc⟩
      · push_neg at hval
        have hres : gpu_new phys bar0 iomem = some (.ok ()) := by
          rw [gpu_new, if_neg hboot, sanity_check, if_neg hboot, hf]
          simp only [hpe]
          rw [if_neg (not_not_intro hval)]
        have hnc : ¬ C := by
          rw [hC]
          rintro (h | ⟨l2, s2, e2, hl2, hpe2, hv2⟩)
          · exact hboot h
          · rw [hf] at hl2
            obtain rfl := Option.some.inj hl2
            rw [hpe] at hpe2
            have h2 := Option.some.inj hpe2
            obtain ⟨rfl, rfl⟩ : s = s2 ∧ e = e2 :=
              ⟨congrArg Prod.fst h2, congrArg Prod.snd h2⟩
            exact hv2 hval
        rw [hres]
        exact ⟨iff_of_false (by simp) hnc, iff_of_true rfl hnc⟩

/-- Witness for C2: with every physical byte `0x12`, BAR0 at `0xbb000000` and
a matching `nvidia` line for the same range, both boot reads agree and
construction succeeds. -/
theorem gpu_new_sanity_witness :
    (∀ line, iomemExample.find? (fun l => containsSub "nvidia".toList l.toList) = some line →
      (parseIomemRange line).isSome) ∧
    (gpu_new (fun _ => 0x12) ⟨0xbb000000, 0x100000, false⟩ iomemExample = some (.ok ()) ↔
      ¬ (read32v (fun _ => 0x12) 0xbb000000 = 0xffffffff ∨
        ∃ line s e,
          iomemExample.find? (fun l => containsSub "nvidia".toList l.toList) = some line ∧
          parseIomemRange line = some (s, e) ∧
          read32v (fun _ => 0x12) s ≠ read32v (fun _ => 0x12) 0xbb000000)) := by
  have hp : ∀ line,
      iomemExample.find? (fun l => containsSub "nvidia".toList l.toList) = some line →
      (parseIomemRange line).isSome := by
    intro line h
    have he : iomemExample.find? (fun l => containsSub "nvidia".toList l.toList) =
        some "  bb000000-bb0fffff : nvidia" := by decide
    rw [he] at h
    obtain rfl := Option.some.inj h
    decide
  exact ⟨hp,
    (gpu_new_sanity (fun _ => 0x12) ⟨0xbb000000, 0x100000, false⟩ iomemExample hp).2⟩

end NvTrust
